import Mathlib

/-!
Verification of the SIOMA dashboard pipeline (src/app.py): ingestion and
normalization (load_data), the stable chart-axis bound (global_max_y), the
filter stage (df_filtered), and the aggregation stage (KPI counts, daily
resampling).  Timestamps are modelled as abstract instants (natural numbers);
the timezone conversion to_datetime().astimezone() is the identity on the
abstract instant, and the calendar day of an instant is obtained by integer
division by the number of seconds in a day, mirroring the floor-to-day
bucketing of resample.  A missing timestamp field is modelled by none; a
present, store-native (convertible) timestamp by some t.  Records whose
timestamp field holds a non-temporal value are outside the model, as
pd.to_datetime at line 102 of src/app.py would abort the script on them.
-/

/-- A raw Firestore document from the work_logs collection, restricted to the
fields the pipeline reads.  timestamp = none models a document without a
timestamp field; some t models a store-native timestamp (which has
to_datetime).  docId is the store-assigned document key. -/
structure RawEvent where
  timestamp : Option Nat
  workerName : String
  eventType : String
  docId : String
deriving DecidableEq, Repr

/-- One row of the normalized DataFrame returned by load_data.
timestamp = none models a NaT cell (the raw record had no timestamp field). -/
structure WorkEvent where
  timestamp : Option Nat
  workerName : String
  eventType : String
  firebase_id : String
deriving DecidableEq, Repr

/-- One iteration of the per-record loop in load_data (src/app.py lines
62-69): copy the fields, attach the document id as firebase_id, and convert
the timestamp when it is present and convertible (the conversion
to_datetime().astimezone() is the identity on the abstract instant).  The
record is appended to the list in every case. -/
def normalizeRecord (r : RawEvent) : WorkEvent :=
  { timestamp := r.timestamp
    workerName := r.workerName
    eventType := r.eventType
    firebase_id := r.docId }

/-- load_data (src/app.py lines 56-89), applied to the fetched document list:
build one row per document; return an empty frame when the list is empty
(line 71) or when no document has a timestamp field, i.e. the timestamp
column does not exist (lines 81-83).  Fetch failures are outside the model
(the function is applied to the documents the stream returned). -/
def load_data (docs : List RawEvent) : List WorkEvent :=
  let logs_list := docs.map normalizeRecord
  if logs_list.isEmpty then []
  else if logs_list.all (fun r => r.timestamp.isNone) then []
  else logs_list

/-- Seconds in one calendar day. -/
def secondsPerDay : Nat := 86400

/-- The calendar day of an instant (the .dt.date accessor / the floor-to-day
bucketing of resample with a daily rule). -/
def dateOf (t : Nat) : Nat := t / secondsPerDay

/-- The calendar days of the rows that carry a timestamp (rows whose
timestamp cell is NaT are dropped by resample and by .min()/.max()). -/
def datesOf (rows : List WorkEvent) : List Nat :=
  rows.filterMap (fun r => r.timestamp.map dateOf)

/-- The first and last calendar day of a day list: none on an empty list,
otherwise the pair (minimum, maximum).  Models the span that a daily
resample covers. -/
def daySpan : List Nat → Option (Nat × Nat)
  | [] => none
  | d :: ds =>
    match daySpan ds with
    | none => some (d, d)
    | some (lo, hi) => some (min d lo, max d hi)

/-- The number of rows that fall on day d. -/
def countDay (d : Nat) (ds : List Nat) : Nat :=
  (ds.filter (fun x => x == d)).length

/-- resample with a daily rule followed by size (src/app.py lines 105 and
204): one bucket for every calendar day from the first to the last day of
the data, inclusive, each with the number of rows on that day (zero-count
days included); empty when no row has a timestamp. -/
def activity_by_day (rows : List WorkEvent) : List (Nat × Nat) :=
  match daySpan (datesOf rows) with
  | none => []
  | some (lo, hi) =>
    (List.range (hi + 1 - lo)).map (fun i => (lo + i, countDay (lo + i) (datesOf rows)))

/-- global_max_y (src/app.py lines 99-107): 0 initially; when the unfiltered
daily series is nonempty, its maximum plus 2. -/
def global_max_y (df_logs : List WorkEvent) : Nat :=
  let acts := activity_by_day df_logs
  if acts.isEmpty then 0 else ((acts.map Prod.snd).foldr max 0) + 2

/-- A NaT-aware date comparison: timestamp.dt.date is greater-or-equal to the
given date.  On a NaT cell the pandas comparison yields False. -/
def tsGeDate (ts : Option Nat) (d : Nat) : Bool :=
  match ts with
  | some t => d ≤ dateOf t
  | none => false

/-- A NaT-aware date comparison: timestamp.dt.date is less-or-equal to the
given date.  On a NaT cell the pandas comparison yields False. -/
def tsLeDate (ts : Option Nat) (d : Nat) : Bool :=
  match ts with
  | some t => dateOf t ≤ d
  | none => false

/-- The row predicate of the filter stage (src/app.py lines 147-152):
workerName selected, and eventType selected, and the date of the timestamp
between start_date and end_date inclusive. -/
def rowPass (workers events : List String) (s t : Nat) (r : WorkEvent) : Bool :=
  workers.contains r.workerName && events.contains r.eventType
    && tsGeDate r.timestamp s && tsLeDate r.timestamp t

/-- df_filtered (src/app.py lines 147-152): the rows of the unfiltered frame
that satisfy the conjunction of the three filters. -/
def df_filtered (df : List WorkEvent) (workers events : List String) (s t : Nat) :
    List WorkEvent :=
  df.filter (rowPass workers events s t)

/-- The aggregates the dashboard computes for a nonempty filtered frame
(src/app.py lines 158-215).  Order of the per-type and per-worker tables is
display-only (value_counts and sort_values order them by count) and is not
part of the model. -/
structure Summary where
  totalCount : Nat
  entranceCount : Nat
  exitCount : Nat
  distinctWorkerCount : Nat
  eventTypeCounts : List (String × Nat)
  perWorker : List (String × Nat)
  dailyActivity : List (Nat × Nat)
  yMax : Nat
deriving DecidableEq, Repr

/-- The aggregation stage applied to the unfiltered frame df_logs and the
filtered frame dff: the four KPI counts (lines 162-165), the per-type
distribution (line 175), the per-worker totals (line 189), the daily series
of the filtered frame (line 204), and the y-axis bound of the line chart,
which is global_max_y of the unfiltered frame (line 209). -/
def mkSummary (df_logs dff : List WorkEvent) : Summary :=
  { totalCount := dff.length
    entranceCount := (dff.filter (fun r => r.eventType == "entrada")).length
    exitCount := (dff.filter (fun r => r.eventType == "salida")).length
    distinctWorkerCount := (dff.map (fun r => r.workerName)).dedup.length
    eventTypeCounts :=
      (dff.map (fun r => r.eventType)).dedup.map
        (fun e => (e, (dff.filter (fun r => r.eventType == e)).length))
    perWorker :=
      (dff.map (fun r => r.workerName)).dedup.map
        (fun w => (w, (dff.filter (fun r => r.workerName == w)).length))
    dailyActivity := activity_by_day dff
    yMax := global_max_y df_logs }

/-- The observable outcome of one run of the dashboard body (src/app.py
lines 92-227). -/
inductive RenderResult where
  | emptyWarning : RenderResult
  | invalidRange : RenderResult
  | noMatch : RenderResult
  | dashboard : Summary → RenderResult
deriving DecidableEq, Repr

/-- The dashboard body after load_data (src/app.py lines 92-227): warn and
render nothing when the frame is empty (line 95); warn and stop when the
date-range selection is not a start/end pair (lines 140-144), before the
filter stage runs; otherwise filter, and either report no matching rows
(line 155) or compute the aggregates. -/
def runDashboard (df_logs : List WorkEvent) (selected_workers selected_events : List String)
    (selected_date_range : List Nat) : RenderResult :=
  if df_logs.isEmpty then .emptyWarning
  else
    match selected_date_range with
    | [start_date, end_date] =>
      let dff := df_filtered df_logs selected_workers selected_events start_date end_date
      if dff.isEmpty then .noMatch
      else .dashboard (mkSummary df_logs dff)
    | _ => .invalidRange

/-- Modelled from the wording of the specification, for comparison with
global_max_y: the maximum per-calendar-day record count over the entire
dataset (the maximum, over the days on which some record falls, of the
number of records on that day; 0 when no record has a timestamp). -/
def maxDailyCount (rows : List WorkEvent) : Nat :=
  ((datesOf rows).map (fun d => countDay d (datesOf rows))).foldr max 0

/-! Concrete data for witnesses and counterexamples: three documents with
timestamps on calendar days 0 and 2, and one document without a timestamp
field. -/

def exDoc1 : RawEvent :=
  { timestamp := some 10, workerName := "Ana", eventType := "entrada", docId := "a" }

def exDoc2 : RawEvent :=
  { timestamp := some 20, workerName := "Ana", eventType := "salida", docId := "b" }

def exDoc3 : RawEvent :=
  { timestamp := some 172830, workerName := "Beto", eventType := "entrada", docId := "c" }

def exDocNoTs : RawEvent :=
  { timestamp := none, workerName := "Caro", eventType := "entrada", docId := "d" }

def exDocs : List RawEvent := [exDoc1, exDoc2, exDoc3, exDocNoTs]

def exDf : List WorkEvent := load_data exDocs

def exW : List String := ["Ana", "Beto", "Caro"]

def exE : List String := ["entrada", "salida"]

/-- A normalized row without a timestamp, as the only row of a frame whose
daily-activity series is empty. -/
def exRowNoTs : WorkEvent :=
  { timestamp := none, workerName := "Caro", eventType := "entrada", firebase_id := "d" }

/-! Helper lemmas. -/

lemma le_foldr_max {l : List Nat} {a : Nat} (h : a ∈ l) : a ≤ l.foldr max 0 := by
  induction l with
  | nil => cases h
  | cons x xs ih =>
    rcases List.mem_cons.mp h with rfl | h
    · exact le_max_left _ _
    · exact le_trans (ih h) (le_max_right _ _)

lemma foldr_max_le {l : List Nat} {m : Nat} (h : ∀ a ∈ l, a ≤ m) : l.foldr max 0 ≤ m := by
  induction l with
  | nil => exact Nat.zero_le m
  | cons x xs ih =>
    simp only [List.foldr_cons]
    exact max_le (h x (List.mem_cons_self x xs)) (ih fun a ha => h a (List.mem_cons_of_mem _ ha))

lemma daySpan_eq_none {ds : List Nat} : daySpan ds = none ↔ ds = [] := by
  cases ds with
  | nil => simp [daySpan]
  | cons d t =>
    simp only [daySpan]
    cases h : daySpan t with
    | none => simp
    | some p => simp

lemma daySpan_bounds {ds : List Nat} {lo hi : Nat} (h : daySpan ds = some (lo, hi)) :
    lo ≤ hi ∧ ∀ x ∈ ds, lo ≤ x ∧ x ≤ hi := by
  induction ds generalizing lo hi with
  | nil => simp [daySpan] at h
  | cons d t ih =>
    simp only [daySpan] at h
    cases ht : daySpan t with
    | none =>
      rw [ht] at h
      have he : t = [] := daySpan_eq_none.mp ht
      have hd : d = lo ∧ d = hi := by simpa using h
      obtain ⟨rfl, h2⟩ := hd
      subst he
      refine ⟨by omega, ?_⟩
      intro x hx
      rcases List.mem_cons.mp hx with rfl | hx
      · omega
      · cases hx
    | some p =>
      obtain ⟨lo1, hi1⟩ := p
      rw [ht] at h
      have hd : min d lo1 = lo ∧ max d hi1 = hi := by simpa using h
      obtain ⟨h1, h2⟩ := hd
      obtain ⟨hlh, hb⟩ := ih ht
      refine ⟨by omega, ?_⟩
      intro x hx
      rcases List.mem_cons.mp hx with rfl | hx
      · omega
      · have := hb x hx
        omega

lemma countDay_cons (d x : Nat) (ds : List Nat) :
    countDay d (x :: ds) = (if x = d then 1 else 0) + countDay d ds := by
  by_cases hx : x = d
  · simp [countDay, List.filter_cons, hx]
    omega
  · simp [countDay, List.filter_cons, hx]

lemma countDay_eq_zero {d : Nat} {ds : List Nat} (h : d ∉ ds) : countDay d ds = 0 := by
  induction ds with
  | nil => rfl
  | cons x t ih =>
    rw [countDay_cons]
    have hx : ¬ x = d := fun e => h (e ▸ List.mem_cons_self x t)
    simp [hx]
    exact ih (fun hm => h (List.mem_cons_of_mem _ hm))

lemma sum_map_zero (l : List Nat) : (l.map (fun _ => (0 : Nat))).sum = 0 := by
  induction l <;> simp [*]

lemma sum_map_add (l : List Nat) (f g : Nat → Nat) :
    (l.map (fun i => f i + g i)).sum = (l.map f).sum + (l.map g).sum := by
  induction l with
  | nil => rfl
  | cons x t ih =>
    simp only [List.map_cons, List.sum_cons, ih]
    omega

lemma sum_indicator_range {lo n x : Nat} (h1 : lo ≤ x) (h2 : x < lo + n) :
    ((List.range n).map (fun i => if x = lo + i then 1 else 0)).sum = 1 := by
  induction n with
  | zero => omega
  | succ m ih =>
    rw [List.range_succ, List.map_append, List.sum_append]
    by_cases hx : x = lo + m
    · have h0 : ((List.range m).map (fun i => if x = lo + i then 1 else 0)).sum = 0 := by
        apply List.sum_eq_zero
        intro y hy
        obtain ⟨i, hi, rfl⟩ := List.mem_map.mp hy
        have him : i < m := List.mem_range.mp hi
        have : ¬ x = lo + i := by omega
        simp [this]
      rw [h0]
      simp [hx]
    · rw [ih (by omega)]
      simp [hx]

lemma sum_countDay_range {ds : List Nat} {lo n : Nat}
    (h : ∀ x ∈ ds, lo ≤ x ∧ x < lo + n) :
    ((List.range n).map (fun i => countDay (lo + i) ds)).sum = ds.length := by
  induction ds with
  | nil =>
    have : (List.range n).map (fun i => countDay (lo + i) ([] : List Nat))
        = (List.range n).map (fun _ => (0 : Nat)) := by
      apply List.map_congr_left
      intro i _
      rfl
    rw [this, sum_map_zero]
    rfl
  | cons x t ih =>
    obtain ⟨hx1, hx2⟩ := h x (List.mem_cons_self x t)
    have hmap : (List.range n).map (fun i => countDay (lo + i) (x :: t))
        = (List.range n).map (fun i => (if x = lo + i then 1 else 0) + countDay (lo + i) t) := by
      apply List.map_congr_left
      intro i _
      rw [countDay_cons]
    rw [hmap, sum_map_add, sum_indicator_range hx1 hx2,
      ih (fun y hy => h y (List.mem_cons_of_mem _ hy))]
    simp [List.length_cons]
    omega

lemma datesOf_eq_nil_iff {rows : List WorkEvent} :
    datesOf rows = [] ↔ ∀ r ∈ rows, r.timestamp = none := by
  simp [datesOf, List.filterMap_eq_nil_iff, Option.map_eq_none']

lemma datesOf_length {rows : List WorkEvent} (h : ∀ r ∈ rows, r.timestamp.isSome) :
    (datesOf rows).length = rows.length := by
  induction rows with
  | nil => rfl
  | cons r t ih =>
    have hr := h r (List.mem_cons_self r t)
    cases hts : r.timestamp with
    | none => rw [hts] at hr; cases hr
    | some x =>
      simp only [datesOf, List.filterMap_cons, hts, Option.map_some, List.length_cons]
      have := ih (fun y hy => h y (List.mem_cons_of_mem _ hy))
      simpa [datesOf] using this

lemma load_data_of_exists {docs : List RawEvent} (h : ∃ d ∈ docs, d.timestamp.isSome) :
    load_data docs = docs.map normalizeRecord := by
  obtain ⟨d, hd, hts⟩ := h
  have h1 : (docs.map normalizeRecord).isEmpty = false := by
    cases docs with
    | nil => cases hd
    | cons a l => rfl
  have h2 : (docs.map normalizeRecord).all (fun r => r.timestamp.isNone) = false := by
    rw [List.all_eq_false]
    refine ⟨normalizeRecord d, List.mem_map_of_mem _ hd, ?_⟩
    simp [normalizeRecord, Option.isNone]
    cases hcase : d.timestamp with
    | none => rw [hcase] at hts; cases hts
    | some x => simp
  simp [load_data, h1, h2]

lemma load_data_of_all_none {docs : List RawEvent} (hall : ∀ d ∈ docs, d.timestamp = none) :
    load_data docs = [] := by
  have h2 : (docs.map normalizeRecord).all (fun r => r.timestamp.isNone) = true := by
    rw [List.all_eq_true]
    intro r hr
    obtain ⟨d, hd, rfl⟩ := List.mem_map.mp hr
    simp [normalizeRecord, hall d hd]
  by_cases h1 : (docs.map normalizeRecord).isEmpty <;> simp [load_data, h1, h2]

lemma exists_isSome_of_load_data_ne_nil {docs : List RawEvent} (h : load_data docs ≠ []) :
    ∃ r ∈ load_data docs, r.timestamp.isSome := by
  by_cases hex : ∃ d ∈ docs, d.timestamp.isSome
  · obtain ⟨d, hd, hts⟩ := hex
    rw [load_data_of_exists ⟨d, hd, hts⟩]
    exact ⟨normalizeRecord d, List.mem_map_of_mem _ hd, by simpa [normalizeRecord] using hts⟩
  · exfalso
    apply h
    apply load_data_of_all_none
    intro d hd
    by_contra hne
    exact hex ⟨d, hd, by cases hcase : d.timestamp with
      | none => exact absurd hcase hne
      | some x => simp⟩

lemma foldr_max_dense_eq {ds : List Nat} {lo hi : Nat} (hspan : daySpan ds = some (lo, hi)) :
    ((List.range (hi + 1 - lo)).map (fun i => countDay (lo + i) ds)).foldr max 0
      = (ds.map (fun d => countDay d ds)).foldr max 0 := by
  obtain ⟨hlohi, hbounds⟩ := daySpan_bounds hspan
  apply Nat.le_antisymm
  · apply foldr_max_le
    intro a ha
    obtain ⟨i, hi2, rfl⟩ := List.mem_map.mp ha
    by_cases hmem : lo + i ∈ ds
    · exact le_foldr_max (List.mem_map.mpr ⟨lo + i, hmem, rfl⟩)
    · rw [countDay_eq_zero hmem]
      exact Nat.zero_le _
  · apply foldr_max_le
    intro a ha
    obtain ⟨d, hd, rfl⟩ := List.mem_map.mp ha
    obtain ⟨hld, hdh⟩ := hbounds d hd
    have hi3 : d - lo ∈ List.range (hi + 1 - lo) := List.mem_range.mpr (by omega)
    have : countDay d ds = countDay (lo + (d - lo)) ds := by
      congr 1
      omega
    rw [this]
    exact le_foldr_max (List.mem_map.mpr ⟨d - lo, hi3, rfl⟩)

lemma activity_by_day_of_span {rows : List WorkEvent} {lo hi : Nat}
    (hspan : daySpan (datesOf rows) = some (lo, hi)) :
    activity_by_day rows
      = (List.range (hi + 1 - lo)).map
          (fun i => (lo + i, countDay (lo + i) (datesOf rows))) := by
  simp [activity_by_day, hspan]

lemma global_max_y_eq {rows : List WorkEvent} (h : datesOf rows ≠ []) :
    global_max_y rows = maxDailyCount rows + 2 := by
  cases hspan : daySpan (datesOf rows) with
  | none => exact absurd (daySpan_eq_none.mp hspan) h
  | some p =>
    obtain ⟨lo, hi⟩ := p
    obtain ⟨hlohi, hbounds⟩ := daySpan_bounds hspan
    have hacts := activity_by_day_of_span hspan
    have hn : hi + 1 - lo = (hi - lo) + 1 := by omega
    have hne : (activity_by_day rows).isEmpty = false := by
      rw [hacts, hn, List.range_succ, List.map_append]
      rcases hmm : (List.range (hi - lo)).map
          (fun i => (lo + i, countDay (lo + i) (datesOf rows))) with _ | ⟨a, l⟩
      · rfl
      · rfl
    unfold global_max_y
    simp only [hne, Bool.false_eq_true, if_false]
    rw [hacts, List.map_map]
    have : (Prod.snd ∘ fun i => (lo + i, countDay (lo + i) (datesOf rows)))
        = fun i => countDay (lo + i) (datesOf rows) := rfl
    rw [this, maxDailyCount, foldr_max_dense_eq hspan]

lemma rowPass_iff {workers events : List String} {s t : Nat} {r : WorkEvent} :
    rowPass workers events s t r = true ↔
      r.workerName ∈ workers ∧ r.eventType ∈ events ∧
        ∃ ts, r.timestamp = some ts ∧ s ≤ dateOf ts ∧ dateOf ts ≤ t := by
  cases hts : r.timestamp with
  | none => simp [rowPass, tsGeDate, tsLeDate, hts]
  | some x =>
    simp [rowPass, tsGeDate, tsLeDate, hts, and_assoc]

lemma mem_df_filtered_isSome {df : List WorkEvent} {w e : List String} {s t : Nat}
    {r : WorkEvent} (h : r ∈ df_filtered df w e s t) : r.timestamp.isSome := by
  obtain ⟨hw, he, ts, hts, hle⟩ := rowPass_iff.mp (List.mem_filter.mp h).2
  simp [hts]

lemma df_filtered_timestamps_isSome {df : List WorkEvent} {w e : List String} {s t : Nat} :
    ∀ r ∈ df_filtered df w e s t, r.timestamp.isSome :=
  fun _ h => mem_df_filtered_isSome h

lemma runDashboard_pair (df : List WorkEvent) (w e : List String) (sd ed : Nat) :
    runDashboard df w e [sd, ed]
      = if df.isEmpty then RenderResult.emptyWarning
        else if (df_filtered df w e sd ed).isEmpty then RenderResult.noMatch
        else RenderResult.dashboard (mkSummary df (df_filtered df w e sd ed)) := rfl

lemma runDashboard_not_pair (df : List WorkEvent) (w e : List String) (rg : List Nat)
    (hlen : rg.length ≠ 2) :
    runDashboard df w e rg
      = if df.isEmpty then RenderResult.emptyWarning else RenderResult.invalidRange := by
  rcases rg with _ | ⟨a, _ | ⟨b, _ | ⟨c, t⟩⟩⟩
  · rfl
  · rfl
  · exact absurd rfl hlen
  · rfl

lemma dashboard_eq_mkSummary {df : List WorkEvent} {w e : List String} {sd ed : Nat}
    {summ : Summary} (h : runDashboard df w e [sd, ed] = RenderResult.dashboard summ) :
    summ = mkSummary df (df_filtered df w e sd ed) := by
  rw [runDashboard_pair] at h
  by_cases h1 : df.isEmpty
  · rw [if_pos h1] at h
    cases h
  · rw [if_neg h1] at h
    by_cases h2 : (df_filtered df w e sd ed).isEmpty
    · rw [if_pos h2] at h
      cases h
    · rw [if_neg h2] at h
      injection h with h
      exact h.symm

lemma two_filter_le (rows : List WorkEvent) :
    (rows.filter (fun r => r.eventType == "entrada")).length
      + (rows.filter (fun r => r.eventType == "salida")).length ≤ rows.length ∧
    ((rows.filter (fun r => r.eventType == "entrada")).length
        + (rows.filter (fun r => r.eventType == "salida")).length = rows.length ↔
      ∀ r ∈ rows, r.eventType = "entrada" ∨ r.eventType = "salida") := by
  induction rows with
  | nil => simp
  | cons x t ih =>
    obtain ⟨ih1, ih2⟩ := ih
    by_cases hx1 : x.eventType = "entrada"
    · have hx2 : ¬ x.eventType = "salida" := by rw [hx1]; decide
      simp only [List.filter_cons, hx1, List.mem_cons, List.length_cons]
      simp only [beq_self_eq_true, if_true, List.length_cons]
      have : (("entrada" : String) == "salida") = false := by decide
      rw [this]
      simp only [Bool.false_eq_true, if_false]
      constructor
      · omega
      · constructor
        · intro hh r hr
          rcases hr with rfl | hr
          · exact Or.inl hx1
          · exact ih2.mp (by omega) r hr
        · intro hh
          have := ih2.mpr (fun r hr => hh r (Or.inr hr))
          omega
    · by_cases hx2 : x.eventType = "salida"
      · simp only [List.filter_cons, List.mem_cons, List.length_cons]
        have h1 : (x.eventType == "entrada") = false := by
          rw [hx2]; decide
        have h2 : (x.eventType == "salida") = true := by
          rw [hx2]; exact beq_self_eq_true _
        rw [h1, h2]
        simp only [Bool.false_eq_true, if_false, if_true, List.length_cons]
        constructor
        · omega
        · constructor
          · intro hh r hr
            rcases hr with rfl | hr
            · exact Or.inr hx2
            · exact ih2.mp (by omega) r hr
          · intro hh
            have := ih2.mpr (fun r hr => hh r (Or.inr hr))
            omega
      · simp only [List.filter_cons, List.mem_cons, List.length_cons]
        have h1 : (x.eventType == "entrada") = false := by
          cases hb : x.eventType == "entrada"
          · rfl
          · exact absurd (eq_of_beq hb) hx1
        have h2 : (x.eventType == "salida") = false := by
          cases hb : x.eventType == "salida"
          · rfl
          · exact absurd (eq_of_beq hb) hx2
        rw [h1, h2]
        simp only [Bool.false_eq_true, if_false]
        constructor
        · omega
        · constructor
          · intro hh
            omega
          · intro hh
            rcases hh x (Or.inl rfl) with hc | hc
            · exact absurd hc hx1
            · exact absurd hc hx2

/-! The claims. -/

/-- C1 counterexample: for an input of 4 records of which exactly one lacks a
timestamp, the per-record loop of load_data keeps all 4 records (the append
is unconditional), so the normalized output has 4 records, not 3 as the
claim states. -/
theorem c1_counterexample :
    exDocs.length = 4 ∧
    (exDocs.filter (fun d => d.timestamp.isNone)).length = 1 ∧
    (load_data exDocs).length ≠ 3 ∧
    (load_data exDocs).length = 4 := by decide

/-- C1 (amended): the per-record loop keeps every record, so the output
length is at most the input length, with equality exactly when the input is
empty or at least one record has a convertible timestamp; records lacking a
timestamp are kept with a missing timestamp value, and the output is empty
only when no record at all has a timestamp field. -/
theorem c1_normalization_keeps_all (docs : List RawEvent) :
    (load_data docs).length ≤ docs.length ∧
    ((load_data docs).length = docs.length ↔
      docs = [] ∨ ∃ d ∈ docs, d.timestamp.isSome) := by
  by_cases hnil : docs = []
  · subst hnil
    simp [load_data]
  · by_cases hex : ∃ d ∈ docs, d.timestamp.isSome
    · rw [load_data_of_exists hex]
      simp [hex]
    · have hall : ∀ d ∈ docs, d.timestamp = none := by
        intro d hd
        cases hcase : d.timestamp with
        | none => rfl
        | some x => exact absurd ⟨d, hd, by simp [hcase]⟩ hex
      rw [load_data_of_all_none hall]
      simp only [List.length_nil]
      refine ⟨Nat.zero_le _, ?_, ?_⟩
      · intro h0
        exact absurd (List.length_eq_zero.mp h0.symm) hnil
      · intro hor
        rcases hor with h | h
        · exact absurd h hnil
        · exact absurd h hex

/-- C2: whenever the dashboard body produces an aggregate summary, the
y-axis bound of the time-series chart equals the maximum per-calendar-day
count of the unfiltered dataset plus the fixed margin 2, and any two
summaries computed from the same unfiltered dataset under different worker,
event-type and date-range selections carry the same y-axis bound. -/
theorem c2_global_axis_stable (df : List WorkEvent) (hdf : datesOf df ≠ [])
    (w1 e1 : List String) (s1 t1 : Nat) (summ1 : Summary)
    (h1 : runDashboard df w1 e1 [s1, t1] = RenderResult.dashboard summ1)
    (w2 e2 : List String) (s2 t2 : Nat) (summ2 : Summary)
    (h2 : runDashboard df w2 e2 [s2, t2] = RenderResult.dashboard summ2) :
    summ1.yMax = maxDailyCount df + 2 ∧ summ1.yMax = summ2.yMax := by
  obtain rfl := dashboard_eq_mkSummary h1
  obtain rfl := dashboard_eq_mkSummary h2
  exact ⟨global_max_y_eq hdf, rfl⟩

/-- Witness for C2 at concrete data: two different filter selections over the
same dataset produce the same stable y-axis bound, equal to the global
daily maximum plus 2. -/
theorem c2_witness :
    (mkSummary exDf (df_filtered exDf exW exE 0 2)).yMax = maxDailyCount exDf + 2 ∧
    (mkSummary exDf (df_filtered exDf exW exE 0 2)).yMax
      = (mkSummary exDf (df_filtered exDf ["Ana"] ["entrada"] 0 2)).yMax :=
  c2_global_axis_stable exDf (by decide) exW exE 0 2 _ (by decide)
    ["Ana"] ["entrada"] 0 2 _ (by decide)

/-- C3 counterexample: on a dataset whose unfiltered daily-activity series is
empty (a single record without a timestamp), global_max_y keeps its
initializer 0, so it is not at least 2 as the claim states: the code does
not compute 0 + 2 in that case. -/
theorem c3_counterexample : ¬ (2 ≤ global_max_y [exRowNoTs]) := by decide

/-- C3 (amended): all counts are non-negative integers (in the model they
are lengths of lists, hence natural numbers), and global_max_y is at least 2
for every dataset whose unfiltered daily-activity series is nonempty; in
particular for every nonempty frame returned by load_data, which is the
only input global_max_y receives in the program.  When the series is empty
global_max_y stays at its initializer 0. -/
theorem c3_axis_at_least_two (docs : List RawEvent) (h : load_data docs ≠ []) :
    2 ≤ global_max_y (load_data docs) := by
  obtain ⟨r, hr, hts⟩ := exists_isSome_of_load_data_ne_nil h
  have hne : datesOf (load_data docs) ≠ [] := by
    intro hnil
    rw [datesOf_eq_nil_iff] at hnil
    rw [hnil r hr] at hts
    cases hts
  rw [global_max_y_eq hne]
  omega

/-- Witness for C3 at concrete data: the axis bound of a nonempty normalized
frame is at least 2. -/
theorem c3_witness : 2 ≤ global_max_y (load_data exDocs) :=
  c3_axis_at_least_two exDocs (by decide)

/-- C4: when the date-range selection is not a start/end pair, the dashboard
body emits a warning and stops before the filter stage: the outcome is the
invalid-range state, which carries no filtered result, no KPI value, no
chart and no table. -/
theorem c4_invalid_range_fails_closed (df : List WorkEvent) (hdf : df ≠ [])
    (w e : List String) (rg : List Nat) (hlen : rg.length ≠ 2) :
    runDashboard df w e rg = RenderResult.invalidRange := by
  rw [runDashboard_not_pair df w e rg hlen]
  have hde : df.isEmpty = false := by
    cases df with
    | nil => exact absurd rfl hdf
    | cons a l => rfl
  rw [hde]
  rfl

/-- Witness for C4 at concrete data: a single-date selection yields the
invalid-range outcome. -/
theorem c4_witness : runDashboard exDf ["Ana"] ["entrada"] [1] = RenderResult.invalidRange :=
  c4_invalid_range_fails_closed exDf (by decide) ["Ana"] ["entrada"] [1] (by decide)

/-- C5: a record is in the filtered output exactly when it is in the
unfiltered frame, its worker is selected, its event type is selected, and
the calendar day of its timestamp lies between the start and end dates,
both inclusive (a record with a missing timestamp never qualifies). -/
theorem c5_filter_membership (df : List WorkEvent) (workers events : List String)
    (s t : Nat) (r : WorkEvent) :
    r ∈ df_filtered df workers events s t ↔
      r ∈ df ∧ r.workerName ∈ workers ∧ r.eventType ∈ events ∧
        ∃ ts, r.timestamp = some ts ∧ s ≤ dateOf ts ∧ dateOf ts ≤ t := by
  unfold df_filtered
  rw [List.mem_filter, rowPass_iff]

/-- C6: for a filtered frame with day span from lo to hi, the daily activity
series has exactly one bucket per calendar day from lo to hi inclusive, in
order and with no gaps, and the bucket counts sum to the number of filtered
records (the totalCount KPI). -/
theorem c6_daily_series (df : List WorkEvent) (w e : List String) (s t lo hi : Nat)
    (hspan : daySpan (datesOf (df_filtered df w e s t)) = some (lo, hi)) :
    (activity_by_day (df_filtered df w e s t)).map Prod.fst
        = List.range' lo (hi + 1 - lo) ∧
    ((activity_by_day (df_filtered df w e s t)).map Prod.snd).sum
        = (df_filtered df w e s t).length := by
  have hacts := activity_by_day_of_span hspan
  obtain ⟨hlohi, hbounds⟩ := daySpan_bounds hspan
  constructor
  · rw [hacts, List.map_map, List.range'_eq_map_range]
    rfl
  · rw [hacts, List.map_map]
    have hcomp : (Prod.snd ∘ fun i =>
          (lo + i, countDay (lo + i) (datesOf (df_filtered df w e s t))))
        = fun i => countDay (lo + i) (datesOf (df_filtered df w e s t)) := rfl
    rw [hcomp]
    rw [sum_countDay_range (fun x hx =>
      ⟨(hbounds x hx).1, by have := (hbounds x hx).2; omega⟩)]
    exact datesOf_length df_filtered_timestamps_isSome

/-- Witness for C6 at concrete data: the filtered frame spans days 0 to 2,
the series has the three buckets 0, 1, 2, and the counts sum to the number
of filtered records. -/
theorem c6_witness :
    (activity_by_day (df_filtered exDf exW exE 0 2)).map Prod.fst
        = List.range' 0 (2 + 1 - 0) ∧
    ((activity_by_day (df_filtered exDf exW exE 0 2)).map Prod.snd).sum
        = (df_filtered exDf exW exE 0 2).length :=
  c6_daily_series exDf exW exE 0 2 0 2 (by decide)

/-- C7: the filter stage is idempotent: filtering the filtered frame again
with the same worker set, event-type set and date range returns the same
frame. -/
theorem c7_filter_idempotent (df : List WorkEvent) (w e : List String) (s t : Nat) :
    df_filtered (df_filtered df w e s t) w e s t = df_filtered df w e s t := by
  unfold df_filtered
  rw [List.filter_filter]
  congr 1
  funext r
  exact Bool.and_self _

/-- C9: the entrance count plus the exit count never exceeds the total count
of the filtered frame, with equality exactly when every filtered record has
event type entrada or salida (the enumeration is open, so other strings can
occur and then the sum is strictly smaller). -/
theorem c9_entrance_exit_bound (df : List WorkEvent) (w e : List String) (a b : Nat) :
    (mkSummary df (df_filtered df w e a b)).entranceCount
        + (mkSummary df (df_filtered df w e a b)).exitCount
        ≤ (mkSummary df (df_filtered df w e a b)).totalCount ∧
    ((mkSummary df (df_filtered df w e a b)).entranceCount
          + (mkSummary df (df_filtered df w e a b)).exitCount
          = (mkSummary df (df_filtered df w e a b)).totalCount ↔
      ∀ r ∈ df_filtered df w e a b,
        r.eventType = "entrada" ∨ r.eventType = "salida") :=
  two_filter_le (df_filtered df w e a b)

/-- C10: when at least one fetched record has a convertible timestamp, a
record lacking one still reaches the normalized frame, carries a missing
timestamp value there, and is excluded from the filtered output for every
worker set, event-type set and date range, because both inclusive date
comparisons are false on a missing timestamp. -/
theorem c10_missing_timestamp_never_filtered (docs : List RawEvent)
    (hsome : ∃ d ∈ docs, d.timestamp.isSome)
    (doc : RawEvent) (hdoc : doc ∈ docs) (hnone : doc.timestamp = none)
    (w e : List String) (s t : Nat) :
    normalizeRecord doc ∈ load_data docs ∧
    (normalizeRecord doc).timestamp = none ∧
    normalizeRecord doc ∉ df_filtered (load_data docs) w e s t := by
  refine ⟨?_, ?_, ?_⟩
  · rw [load_data_of_exists hsome]
    exact List.mem_map_of_mem _ hdoc
  · simpa [normalizeRecord] using hnone
  · intro hmem
    obtain ⟨hw, he, ts, hts, hle⟩ := rowPass_iff.mp (List.mem_filter.mp hmem).2
    rw [show (normalizeRecord doc).timestamp = doc.timestamp from rfl, hnone] at hts
    cases hts

/-- Witness for C10 at concrete data: the record without a timestamp is in
the normalized frame with a missing timestamp and absent from the filtered
output. -/
theorem c10_witness :
    normalizeRecord exDocNoTs ∈ load_data exDocs ∧
    (normalizeRecord exDocNoTs).timestamp = none ∧
    normalizeRecord exDocNoTs ∉ df_filtered (load_data exDocs) exW exE 0 2 :=
  c10_missing_timestamp_never_filtered exDocs (by decide) exDocNoTs (by decide) rfl exW exE 0 2
